import Mathlib

/-!
Verification of the cargolint extension (`src/extension.ts`).

The development shallowly embeds the extension's pipeline:
posix path manipulation (`path.join` / `path.dirname` as used by the
source), the Cargo.toml root locator `findCargoRoot`, the process runner
`execArgs` (modelled as a fold over the child process's event trace),
the line-oriented output parser `processCargoCheckOutput` (with
`JSON.parse` as an abstract decode function supplied by the host),
the severity / label derivation `getSeverity` / `getLabel`, the
diagnostic mapper and its per-file store (a JavaScript `Map` modelled as
an insertion-ordered association list with unique keys), and the
save-triggered orchestrator `runOnSave`.

Strings that stand for filesystem paths in the source are modelled by
`JsPath`: an absoluteness flag plus the list of path segments.  Node's
`path.join` normalisation (`.` and `..` resolution) is implemented on
segments by `normStep`; the source's string comparison `folder === '/'`
becomes comparison with `rootPath`.
-/

deriving instance DecidableEq for Except

namespace Cargolint

/-- A posix path as manipulated by Node's `path` module: an absolute flag
and the list of segments.  `⟨true, []⟩` renders as `"/"`, `⟨false, []⟩`
as `"."`. -/
structure JsPath where
  abs : Bool
  segs : List String
deriving DecidableEq

/-- The filesystem root `"/"`, the value the locator's loop compares
its candidate folder against. -/
def rootPath : JsPath := ⟨true, []⟩

/-- One step of Node's path normalisation: skip empty and `"."` segments,
resolve `".."` against the (reversed) accumulator — popping a previous
real segment, collapsing at the root of an absolute path, and keeping
leading `".."`s of a relative path. -/
def normStep (absFlag : Bool) (acc : List String) (seg : String) : List String :=
  if seg = "" ∨ seg = "." then acc
  else if seg = ".." then
    match acc with
    | [] => if absFlag then [] else [".."]
    | s :: rest => if s = ".." then ".." :: s :: rest else rest
  else seg :: acc

/-- Node's `path.normalize` on the segment representation. -/
def pathNormalize (p : JsPath) : JsPath :=
  ⟨p.abs, (p.segs.foldl (normStep p.abs) []).reverse⟩

/-- Node's `path.join(p, q)`: concatenate the segments and normalise.
As in Node, a leading `/` of the second argument is collapsed by the
join, so the result's absoluteness is the first argument's. -/
def pathJoin (p q : JsPath) : JsPath :=
  pathNormalize ⟨p.abs, p.segs ++ q.segs⟩

/-- Node's `path.dirname`: drop the last segment. -/
def dirname (p : JsPath) : JsPath :=
  ⟨p.abs, p.segs.dropLast⟩

/-- `testExists` of the source: `fs.stat` succeeding means the path
exists; a stat failure is caught and reported as `false`.  The
filesystem is an abstract existence predicate. -/
def testExists (fs : JsPath → Bool) (f : JsPath) : Bool := fs f

/-- The `while (true)` loop of `findCargoRoot`, made total with fuel
(`none` = the loop is still running after `fuel` iterations).  Exactly
as in the source: test `path.join(folder, 'Cargo.toml')`; on a hit
return `folder`; otherwise move to `path.join(folder, '..')` and reject
when that new candidate equals `'/'`. -/
def findCargoRootLoop (fs : JsPath → Bool) : Nat → JsPath → Option (Except String JsPath)
  | 0, _ => none
  | fuel + 1, folder =>
    if testExists fs (pathJoin folder ⟨false, ["Cargo.toml"]⟩) then
      some (Except.ok folder)
    else
      let folder' := pathJoin folder ⟨false, [".."]⟩
      if folder' = rootPath then
        some (Except.error "No Cargo.toml found in any parent folder.")
      else
        findCargoRootLoop fs fuel folder'

/-- `findCargoRoot` of the source: start the loop at the saved file's
containing directory. -/
def findCargoRoot (fs : JsPath → Bool) (fileName : JsPath) (fuel : Nat) :
    Option (Except String JsPath) :=
  findCargoRootLoop fs fuel (dirname fileName)

/-- The resolution value of `execArgs`: accumulated stdout, stderr and
the exit code. -/
structure ExecOutput where
  stdout : String
  stderr : String
  code : Int
deriving DecidableEq

/-- The rejection value of `execArgs`: the partial stdout/stderr
accumulated before the spawn error, plus the underlying error. -/
structure SpawnFailure where
  stdout : String
  stderr : String
  error : String
deriving DecidableEq

/-- One event delivered by the child process to the handlers `execArgs`
registers: a stdout chunk, a stderr chunk, an `error` event or a
`close` event with the exit code. -/
inductive ProcEvent where
  | stdoutData (d : String)
  | stderrData (d : String)
  | errorEv (e : String)
  | closeEv (code : Int)
deriving DecidableEq

/-- `true` on the data-chunk events, `false` on `error` and `close`. -/
def isDataEvent : ProcEvent → Bool
  | ProcEvent.stdoutData _ => true
  | ProcEvent.stderrData _ => true
  | ProcEvent.errorEv _ => false
  | ProcEvent.closeEv _ => false

/-- The state of one `execArgs` promise: the two accumulators and the
settlement (`none` while pending; a promise settles at most once). -/
structure ExecState where
  stdout : String
  stderr : String
  settled : Option (Except SpawnFailure ExecOutput)

/-- One handler invocation of `execArgs`: data events append to the
accumulators; `error` rejects and `close` resolves, each only if the
promise is not already settled. -/
def execStep (st : ExecState) : ProcEvent → ExecState
  | ProcEvent.stdoutData d => { st with stdout := st.stdout ++ d }
  | ProcEvent.stderrData d => { st with stderr := st.stderr ++ d }
  | ProcEvent.errorEv e =>
    match st.settled with
    | some _ => st
    | none => { st with settled := some (Except.error ⟨st.stdout, st.stderr, e⟩) }
  | ProcEvent.closeEv c =>
    match st.settled with
    | some _ => st
    | none => { st with settled := some (Except.ok ⟨st.stdout, st.stderr, c⟩) }

/-- `execArgs` as a function of the child process's event trace: fold
the handlers over the events and read off how the promise settled
(`none` = the promise never settles). -/
def execArgsModel (events : List ProcEvent) : Option (Except SpawnFailure ExecOutput) :=
  (events.foldl execStep ⟨"", "", none⟩).settled

/-- The stdout chunks of a trace, appended after `a`. -/
def stdoutFrom (a : String) (events : List ProcEvent) : String :=
  events.foldl (fun acc ev => match ev with | ProcEvent.stdoutData d => acc ++ d | _ => acc) a

/-- The stderr chunks of a trace, appended after `b`. -/
def stderrFrom (b : String) (events : List ProcEvent) : String :=
  events.foldl (fun acc ev => match ev with | ProcEvent.stderrData d => acc ++ d | _ => acc) b

/-- Concatenation of the stdout chunks of a trace. -/
def stdoutOf (events : List ProcEvent) : String := stdoutFrom "" events

/-- Concatenation of the stderr chunks of a trace. -/
def stderrOf (events : List ProcEvent) : String := stderrFrom "" events

/-- JavaScript's `s.split('\n')`, on the character list of the string. -/
def splitOnNewline (s : String) : List String :=
  (s.toList.splitOn '\n').map List.asString

/-- JavaScript's `l.trim()`: strip leading and trailing whitespace. -/
def trimLine (s : String) : String :=
  (((s.toList.dropWhile Char.isWhitespace).reverse.dropWhile Char.isWhitespace).reverse).asString

/-- The line discipline of `processCargoCheckOutput`: split on newline,
trim each line, keep the non-empty ones. -/
def nonEmptyTrimmedLines (s : String) : List String :=
  ((splitOnNewline s).map trimLine).filter (fun l => decide (0 < l.length))

/-- `processCargoCheckOutput`: decode each remaining line independently;
a line on which `JSON.parse` throws contributes the `null` placeholder
(`none`).  `decode` is the abstract host decoder (`JSON.parse` composed
with the `CheckMessage` shape). -/
def processCargoCheckOutput {α : Type} (decode : String → Option α) (s : String) :
    List (Option α) :=
  (nonEmptyTrimmedLines s).map decode

/-- The `target` field of a `CheckMessage`. -/
structure TargetInfo where
  name : String
  edition : String
  src_path : String
deriving DecidableEq

/-- The optional `code` field of a message body. -/
structure CodeInfo where
  code : String
  explanation : Option String
deriving DecidableEq

/-- One span of a compiler message (`CheckMessageSpan` of the source).
Path-valued and nullable string fields use the path model and `Option`. -/
structure CheckMessageSpan where
  file_name : JsPath
  line_start : Int
  line_end : Int
  column_start : Int
  column_end : Int
  is_primary : Bool
  label : Option String
  suggested_replacement : Option String
  suggestion_applicability : Option String
  expansion : Option String
deriving DecidableEq

/-- The `message` body of a compiler-message record: text, optional
code, severity level string and the spans. -/
structure MessageBody where
  message : String
  code : Option CodeInfo
  level : String
  spans : List CheckMessageSpan
deriving DecidableEq

/-- One parsed line of checker output (`CheckMessage` of the source).
At runtime only compiler-message records carry a `message` body; on the
other reasons the field is absent (`none` models `undefined`). -/
structure CheckMessage where
  reason : String
  package_id : String
  target : TargetInfo
  message : Option MessageBody
deriving DecidableEq

/-- `vscode.DiagnosticSeverity`. -/
inductive DiagnosticSeverity where
  | Error
  | Warning
  | Information
  | Hint
deriving DecidableEq

/-- `vscode.Position`. -/
structure Position where
  line : Int
  character : Int
deriving DecidableEq

/-- `vscode.Range` (`stop` is the `end` position). -/
structure Range where
  start : Position
  stop : Position
deriving DecidableEq

/-- `vscode.Diagnostic`: range, label text and severity. -/
structure Diagnostic where
  range : Range
  message : String
  severity : DiagnosticSeverity
deriving DecidableEq

/-- `getSeverity` of the source.  It is only called once the `message`
body has been checked present, so it takes the body. -/
def getSeverity (message : MessageBody) (span : CheckMessageSpan) : DiagnosticSeverity :=
  if span.is_primary then
    if message.level = "error" then DiagnosticSeverity.Error
    else DiagnosticSeverity.Warning
  else DiagnosticSeverity.Hint

/-- `getLabel` of the source: the message text alone when the span's
label is `null`, otherwise the template `` `${message}: ${label}` ``. -/
def getLabel (message : MessageBody) (span : CheckMessageSpan) : String :=
  match span.label with
  | none => message.message
  | some l => message.message ++ ": " ++ l

/-- The `new vscode.Diagnostic(...)` construction of the mapping loop:
all four 1-based coordinates shifted down by one, label and severity
derived. -/
def spanToDiagnostic (body : MessageBody) (span : CheckMessageSpan) : Diagnostic :=
  { range := ⟨⟨span.line_start - 1, span.column_start - 1⟩,
              ⟨span.line_end - 1, span.column_end - 1⟩⟩,
    message := getLabel body span,
    severity := getSeverity body span }

/-- The per-file diagnostic store `diagnosticsPerFile`: a JavaScript
`Map`, modelled as an insertion-ordered association list with unique
keys. -/
abbrev DiagStore := List (JsPath × List Diagnostic)

/-- The host's published diagnostic collection `dc`, same
representation. -/
abbrev DiagCollection := List (JsPath × List Diagnostic)

/-- The clearing loop of the orchestrator: truncate every stored
sequence in place (`diagnostics.length = 0`), keeping the keys. -/
def clearDiagnostics (store : DiagStore) : DiagStore :=
  store.map (fun e => (e.1, ([] : List Diagnostic)))

/-- The `get` / `set` / `push` sequence of the mapping loop: push the
diagnostic onto the key's sequence, creating the entry (at the end, as
`Map.set` does) when the key is absent. -/
def addDiagnostic : DiagStore → JsPath → Diagnostic → DiagStore
  | [], key, d => [(key, [d])]
  | e :: rest, key, d =>
    if e.1 = key then (e.1, e.2 ++ [d]) :: rest
    else e :: addDiagnostic rest key d

/-- The mapping loop of the orchestrator over the parsed messages.
A record whose `message` field is absent (`undefined`) is skipped by
the `=== undefined` test; on a `null` placeholder that very test
dereferences `null` and throws a `TypeError`, which aborts the loop —
modelled by `Except.error` carrying the store as mutated so far.
Otherwise each span contributes one diagnostic under the key
`path.join(cargoRoot, span.file_name)`. -/
def mapDiagnostics (cargoRoot : JsPath) :
    List (Option CheckMessage) → DiagStore → Except DiagStore DiagStore
  | [], store => Except.ok store
  | none :: _, store => Except.error store
  | some m :: rest, store =>
    match m.message with
    | none => mapDiagnostics cargoRoot rest store
    | some body =>
      mapDiagnostics cargoRoot rest
        (body.spans.foldl
          (fun st span =>
            addDiagnostic st (pathJoin cargoRoot span.file_name) (spanToDiagnostic body span))
          store)

/-- `dc.set(file, diagnostics)`: replace the entry in place, or append
a new one. -/
def dcSet : DiagCollection → JsPath → List Diagnostic → DiagCollection
  | [], key, v => [(key, v)]
  | e :: rest, key, v =>
    if e.1 = key then (key, v) :: rest
    else e :: dcSet rest key v

/-- Lookup in the published collection. -/
def lookupA (dc : DiagCollection) (key : JsPath) : Option (List Diagnostic) :=
  match dc with
  | [] => none
  | e :: rest => if e.1 = key then some e.2 else lookupA rest key

/-- The publishing loop: `dc.set` for every entry of the store. -/
def publishAll (store : DiagStore) (dc : DiagCollection) : DiagCollection :=
  store.foldl (fun acc e => dcSet acc e.1 e.2) dc

/-- The mutable state the save handler touches: the per-file store, the
published collection, and a count of the user-visible error messages
shown so far. -/
structure HostState where
  diagnosticsPerFile : DiagStore
  dc : DiagCollection
  errorsShown : Nat
deriving DecidableEq

/-- The body of the save handler for a `.rs` save: locate the root,
run the checker (its behaviour given by the event trace), parse, clear,
map and publish; the `catch` turns a root-location rejection, a spawn
rejection or a mapping-loop throw into one user-visible error message.
`none` is the model artifact for a run that never completes (fuel
exhausted or a never-settling process). -/
def runOnSave (fs : JsPath → Bool) (fuel : Nat) (events : List ProcEvent)
    (decode : String → Option CheckMessage) (fileName : JsPath) (st : HostState) :
    Option HostState :=
  match findCargoRoot fs fileName fuel with
  | none => none
  | some (Except.error _) => some { st with errorsShown := st.errorsShown + 1 }
  | some (Except.ok cargoRoot) =>
    match execArgsModel events with
    | none => none
    | some (Except.error _) => some { st with errorsShown := st.errorsShown + 1 }
    | some (Except.ok out) =>
      let messages := processCargoCheckOutput decode out.stdout
      let parseFailures := messages.countP (fun m => decide (m = none))
      let cleared := clearDiagnostics st.diagnosticsPerFile
      match mapDiagnostics cargoRoot messages cleared with
      | Except.error partialStore =>
        some { diagnosticsPerFile := partialStore, dc := st.dc,
               errorsShown := st.errorsShown + parseFailures + 1 }
      | Except.ok newStore =>
        some { diagnosticsPerFile := newStore, dc := publishAll newStore st.dc,
               errorsShown := st.errorsShown + parseFailures }

/-! ## Path lemmas -/

/-- Segment lists of already-normalised paths: no empty, `"."` or
`".."` segments. -/
def NormalSegs (segs : List String) : Prop :=
  ∀ s ∈ segs, s ≠ "" ∧ s ≠ "." ∧ s ≠ ".."

instance (segs : List String) : Decidable (NormalSegs segs) :=
  List.decidableBAll _ segs

theorem normStep_plain (a : Bool) (acc : List String) (s : String)
    (h : s ≠ "" ∧ s ≠ "." ∧ s ≠ "..") : normStep a acc s = s :: acc := by
  unfold normStep
  rw [if_neg (by rintro (h1 | h2) <;> [exact h.1 h1; exact h.2.1 h2]), if_neg h.2.2]

theorem foldl_normStep_normal (a : Bool) :
    ∀ (l acc : List String), NormalSegs l → l.foldl (normStep a) acc = l.reverse ++ acc := by
  intro l
  induction l with
  | nil => intro acc _; simp
  | cons s t ih =>
    intro acc h
    rw [List.foldl_cons, normStep_plain a acc s (h s (by simp)),
      ih (s :: acc) (fun x hx => h x (by simp [hx]))]
    simp

theorem pathJoin_normal (p q : JsPath) (hp : NormalSegs p.segs) (hq : NormalSegs q.segs) :
    pathJoin p q = ⟨p.abs, p.segs ++ q.segs⟩ := by
  have hpq : NormalSegs (p.segs ++ q.segs) := by
    intro s hs
    rcases List.mem_append.mp hs with h | h
    · exact hp s h
    · exact hq s h
  unfold pathJoin pathNormalize
  simp only
  rw [foldl_normStep_normal p.abs (p.segs ++ q.segs) [] hpq]
  simp

theorem pathJoin_abs (p q : JsPath) : (pathJoin p q).abs = p.abs := rfl

theorem normStep_dotdot (a : Bool) (s : String) (acc : List String) (h : s ≠ "..") :
    normStep a (s :: acc) ".." = acc := by
  unfold normStep
  rw [if_neg (by decide), if_pos rfl]
  simp [h]

theorem pathJoin_dotdot (a : Bool) (segs : List String)
    (hnorm : NormalSegs segs) (hne : segs ≠ []) :
    pathJoin ⟨a, segs⟩ ⟨false, [".."]⟩ = ⟨a, segs.dropLast⟩ := by
  rcases (List.eq_nil_or_concat segs).resolve_left hne with ⟨init, lastv, rfl⟩
  have hinit : NormalSegs init := fun x hx => hnorm x (by simp [hx])
  have hlast : lastv ≠ "" ∧ lastv ≠ "." ∧ lastv ≠ ".." := hnorm lastv (by simp)
  unfold pathJoin pathNormalize
  simp only [List.concat_eq_append]
  rw [List.append_assoc, List.foldl_append, foldl_normStep_normal a init [] hinit,
    List.append_nil]
  simp only [List.singleton_append]
  rw [List.foldl_cons, normStep_plain a _ lastv hlast, List.foldl_cons,
    normStep_dotdot a lastv init.reverse hlast.2.2, List.foldl_nil]
  simp [List.dropLast_concat]

theorem pathJoin_cargo (a : Bool) (segs : List String) (hnorm : NormalSegs segs) :
    pathJoin ⟨a, segs⟩ ⟨false, ["Cargo.toml"]⟩ = ⟨a, segs ++ ["Cargo.toml"]⟩ :=
  pathJoin_normal ⟨a, segs⟩ ⟨false, ["Cargo.toml"]⟩ hnorm (by decide)

/-! ## Root locator lemmas -/

/-- With no manifest anywhere, the locator loop started at a relative
folder is still running after any number of iterations: the candidate
stays relative, so it never compares equal to the filesystem root. -/
theorem findCargoRootLoop_relative_runs_forever :
    ∀ (fuel : Nat) (folder : JsPath), folder.abs = false →
      findCargoRootLoop (fun _ => false) fuel folder = none := by
  intro fuel
  induction fuel with
  | zero => intro folder _; rfl
  | succ n ih =>
    intro folder habs
    unfold findCargoRootLoop testExists
    rw [if_neg (by simp)]
    rw [if_neg (by
      intro h
      have : (pathJoin folder ⟨false, [".."]⟩).abs = rootPath.abs := by rw [h]
      rw [pathJoin_abs, habs] at this
      exact Bool.false_ne_true this)]
    exact ih _ (by rw [pathJoin_abs]; exact habs)

/-- Core induction for the locator: walking from an absolute normalised
folder, if the nearest ancestor holding `Cargo.toml` is `d` levels up
and is not the filesystem root (unless `d = 0`), the loop returns it. -/
theorem findCargoRootLoop_finds (fs : JsPath → Bool) :
    ∀ (d : Nat) (segs : List String), NormalSegs segs → d ≤ segs.length →
      fs ⟨true, segs.take (segs.length - d) ++ ["Cargo.toml"]⟩ = true →
      (∀ k, k < d → fs ⟨true, segs.take (segs.length - k) ++ ["Cargo.toml"]⟩ = false) →
      (d = 0 ∨ segs.length - d ≠ 0) →
      ∀ fuel, d < fuel →
        findCargoRootLoop fs fuel ⟨true, segs⟩ =
          some (Except.ok ⟨true, segs.take (segs.length - d)⟩) := by
  intro d
  induction d with
  | zero =>
    intro segs hnorm _ htarget _ _ fuel hfuel
    match fuel, hfuel with
    | fuel + 1, _ =>
      rw [Nat.sub_zero, List.take_length] at htarget ⊢
      unfold findCargoRootLoop testExists
      rw [pathJoin_cargo true segs hnorm, if_pos htarget]
  | succ d ih =>
    intro segs hnorm hd htarget hmiss hroot fuel hfuel
    match fuel, hfuel with
    | fuel + 1, hfuel =>
      have hlen : 0 < segs.length := by omega
      have hne : segs ≠ [] := by
        intro h
        rw [h] at hlen
        exact Nat.lt_irrefl 0 hlen
      have hmiss0 : fs ⟨true, segs ++ ["Cargo.toml"]⟩ = false := by
        have := hmiss 0 (Nat.succ_pos d)
        rwa [Nat.sub_zero, List.take_length] at this
      have hnotroot : segs.length - (d + 1) ≠ 0 := by
        rcases hroot with h | h
        · exact absurd h (Nat.succ_ne_zero d)
        · exact h
      unfold findCargoRootLoop testExists
      rw [pathJoin_cargo true segs hnorm, hmiss0, if_neg (by simp),
        pathJoin_dotdot true segs hnorm hne]
      have hdlne : segs.dropLast ≠ [] := by
        intro h
        have := congrArg List.length h
        rw [List.length_dropLast] at this
        simp at this
        omega
      rw [if_neg (by
        intro h
        exact hdlne (congrArg JsPath.segs h))]
      have hdlnorm : NormalSegs segs.dropLast := by
        intro s hs
        exact hnorm s (List.dropLast_sublist segs |>.subset hs)
      have hlendl : segs.dropLast.length = segs.length - 1 := List.length_dropLast segs
      have htake : ∀ j : Nat, segs.dropLast.take (segs.dropLast.length - j) =
          segs.take (segs.length - (j + 1)) := by
        intro j
        rw [hlendl, List.dropLast_eq_take, List.take_take]
        congr 1
        omega
      have := ih segs.dropLast hdlnorm (by omega)
        (by rw [htake d]; exact htarget)
        (by
          intro k hk
          rw [htake k]
          exact hmiss (k + 1) (Nat.succ_lt_succ hk))
        (by
          right
          omega)
        fuel (by omega)
      rw [this, htake d]

/-! ## Claims C2 and C3 -/

/-- C2 (counterexample): the manifest sits in the filesystem root
(`/Cargo.toml` exists, `/a/Cargo.toml` does not), the saved file is
`/a/main.rs`, so the nearest manifest-bearing ancestor is the root at
depth 1 — yet `findCargoRoot` rejects instead of returning the root,
because the loop tests the root-equality of the new candidate before
probing it for the manifest. -/
theorem findCargoRoot_root_manifest_missed :
    (fun p => decide (p = ⟨true, ["Cargo.toml"]⟩)) (pathJoin rootPath ⟨false, ["Cargo.toml"]⟩) = true ∧
    (fun p => decide (p = ⟨true, ["Cargo.toml"]⟩)) (pathJoin ⟨true, ["a"]⟩ ⟨false, ["Cargo.toml"]⟩) = false ∧
    findCargoRoot (fun p => decide (p = ⟨true, ["Cargo.toml"]⟩)) ⟨true, ["a", "main.rs"]⟩ 10 =
      some (Except.error "No Cargo.toml found in any parent folder.") := by
  refine ⟨rfl, rfl, rfl⟩

/-- C2 (amended): for an absolute, normalised file path whose nearest
`Cargo.toml`-bearing ancestor sits `d` levels above the containing
directory, `findCargoRoot` returns exactly that ancestor — provided the
ancestor is not the filesystem root, or `d = 0` (a manifest in the root
is only found when the saved file sits directly in the root; otherwise
the loop rejects first, as the counterexample shows). -/
theorem findCargoRoot_nearest_ancestor (fs : JsPath → Bool) (fileName : JsPath)
    (d fuel : Nat)
    (habs : fileName.abs = true) (hnorm : NormalSegs fileName.segs)
    (hd : d ≤ fileName.segs.dropLast.length)
    (htarget : fs ⟨true, fileName.segs.dropLast.take (fileName.segs.dropLast.length - d) ++
      ["Cargo.toml"]⟩ = true)
    (hmiss : ∀ k, k < d → fs ⟨true, fileName.segs.dropLast.take
      (fileName.segs.dropLast.length - k) ++ ["Cargo.toml"]⟩ = false)
    (hnotroot : d = 0 ∨ fileName.segs.dropLast.length - d ≠ 0)
    (hfuel : d < fuel) :
    findCargoRoot fs fileName fuel =
      some (Except.ok ⟨true, fileName.segs.dropLast.take
        (fileName.segs.dropLast.length - d)⟩) := by
  have hdir : dirname fileName = ⟨true, fileName.segs.dropLast⟩ := by
    unfold dirname
    rw [habs]
  unfold findCargoRoot
  rw [hdir]
  exact findCargoRootLoop_finds fs d fileName.segs.dropLast
    (fun s hs => hnorm s (List.dropLast_sublist fileName.segs |>.subset hs))
    hd htarget hmiss hnotroot fuel hfuel

/-- C2 (witness): `/w/Cargo.toml` exists, saving `/w/src/main.rs`
finds the root `/w` one level up. -/
theorem findCargoRoot_nearest_ancestor_witness :
    findCargoRoot (fun p => decide (p = ⟨true, ["w", "Cargo.toml"]⟩))
      ⟨true, ["w", "src", "main.rs"]⟩ 3 = some (Except.ok ⟨true, ["w"]⟩) := by
  have h := findCargoRoot_nearest_ancestor
    (fun p => decide (p = ⟨true, ["w", "Cargo.toml"]⟩))
    ⟨true, ["w", "src", "main.rs"]⟩ 1 3 rfl (by decide) (by decide)
    (by decide)
    (by
      intro k hk
      have hk0 : k = 0 := by omega
      subst hk0
      decide)
    (by decide) (by decide)
  simpa using h

/-- C3: the spec claims the locator terminates with `RootNotFound` for
absolute and relative inputs alike, but for a relative saved-file path
whose ancestors hold no manifest the loop never terminates: the
candidate folder stays relative (`.`, `..`, `../..`, …), so it never
equals `'/'`, and the loop neither returns nor rejects at any fuel. -/
theorem findCargoRoot_relative_never_terminates :
    ∀ fuel : Nat, findCargoRoot (fun _ => false) ⟨false, ["src", "main.rs"]⟩ fuel = none := by
  intro fuel
  unfold findCargoRoot
  exact findCargoRootLoop_relative_runs_forever fuel _ rfl

/-! ## Claims C4, C5, C6 -/

/-- C4: the parser output has one entry per non-empty trimmed input
line, in input order; position `i` holds exactly the decode of line
`i`, so a failed line yields the `null` placeholder there and every
other line still yields its decoded record — one bad line neither
shifts, drops nor aborts the rest of the batch. -/
theorem processCargoCheckOutput_line_discipline {α : Type}
    (decode : String → Option α) (s : String) :
    (processCargoCheckOutput decode s).length = (nonEmptyTrimmedLines s).length ∧
    ∀ i : Nat, (processCargoCheckOutput decode s)[i]? =
      ((nonEmptyTrimmedLines s)[i]?).map decode := by
  constructor
  · unfold processCargoCheckOutput
    exact List.length_map _ _
  · intro i
    unfold processCargoCheckOutput
    exact List.getElem?_map _ _ _

/-- C5: a primary span with level `"error"` maps to `Error`; a primary
span with any other level maps to `Warning`; a non-primary span maps to
`Hint` whatever the level. -/
theorem getSeverity_characterisation (body : MessageBody) (span : CheckMessageSpan) :
    (getSeverity body span = DiagnosticSeverity.Error ↔
      span.is_primary = true ∧ body.level = "error") ∧
    (getSeverity body span = DiagnosticSeverity.Warning ↔
      span.is_primary = true ∧ body.level ≠ "error") ∧
    (getSeverity body span = DiagnosticSeverity.Hint ↔ span.is_primary = false) := by
  cases hp : span.is_primary <;> by_cases hl : body.level = "error" <;>
    simp [getSeverity, hp, hl]

/-- C6: with no span label the diagnostic label is the message text
verbatim; with a label it is the message text, `": "`, then the span's
label. -/
theorem getLabel_characterisation (body : MessageBody) (span : CheckMessageSpan) :
    (span.label = none → getLabel body span = body.message) ∧
    (∀ l, span.label = some l → getLabel body span = body.message ++ ": " ++ l) := by
  constructor
  · intro h
    unfold getLabel
    rw [h]
  · intro l h
    unfold getLabel
    rw [h]

/-- C6 (witness): a span labelled `"expected i32"` on the message
`"mismatched types"`. -/
theorem getLabel_characterisation_witness :
    getLabel ⟨"mismatched types", none, "error", []⟩
      ⟨⟨false, ["src", "main.rs"]⟩, 5, 5, 3, 10, true, some "expected i32",
        none, none, none⟩ = "mismatched types: expected i32" := by
  have h := (getLabel_characterisation ⟨"mismatched types", none, "error", []⟩
    ⟨⟨false, ["src", "main.rs"]⟩, 5, 5, 3, 10, true, some "expected i32",
      none, none, none⟩).2 "expected i32" rfl
  exact h.trans (by decide)

/-! ## Claim C1 -/

/-- A primary error span as cargo emits it, used as concrete data. -/
def sampleSpan : CheckMessageSpan :=
  { file_name := ⟨false, ["src", "main.rs"]⟩, line_start := 5, line_end := 5,
    column_start := 3, column_end := 10, is_primary := true,
    label := some "expected i32", suggested_replacement := none,
    suggestion_applicability := none, expansion := none }

/-- A compiler-message body holding `sampleSpan`. -/
def sampleBody : MessageBody :=
  { message := "mismatched types", code := some ⟨"E0308", none⟩,
    level := "error", spans := [sampleSpan] }

/-- A well-formed compiler-message record. -/
def sampleMsg : CheckMessage :=
  { reason := "compiler-message", package_id := "demo 0.1.0",
    target := ⟨"demo", "2018", "src/main.rs"⟩, message := some sampleBody }

/-- C1: the mapping loop's `message.message === undefined` test
dereferences the `null` placeholder a parse failure leaves in the
messages sequence and throws, aborting the whole mapping (first
conjunct: the batch `[null, valid]` errors out and produces no
diagnostics), even though the same valid record alone maps to its
diagnostic (second conjunct) — so one unparseable line does prevent the
other lines' diagnostics from being produced and published. -/
theorem mapDiagnostics_null_placeholder_aborts :
    mapDiagnostics ⟨true, ["w"]⟩ [none, some sampleMsg] [] = Except.error [] ∧
    mapDiagnostics ⟨true, ["w"]⟩ [some sampleMsg] [] =
      Except.ok [(⟨true, ["w", "src", "main.rs"]⟩, [spanToDiagnostic sampleBody sampleSpan])] := by
  exact ⟨rfl, rfl⟩

/-! ## Process runner lemmas and claim C9 -/

/-- Folding the handlers over data-only events accumulates the chunks
and leaves the promise pending. -/
theorem foldl_execStep_data :
    ∀ (pre : List ProcEvent), (∀ ev ∈ pre, isDataEvent ev = true) →
      ∀ (a b : String),
        pre.foldl execStep ⟨a, b, none⟩ = ⟨stdoutFrom a pre, stderrFrom b pre, none⟩ := by
  intro pre
  induction pre with
  | nil => intro _ a b; rfl
  | cons ev t ih =>
    intro h a b
    have ht : ∀ e ∈ t, isDataEvent e = true := fun e he => h e (by simp [he])
    cases ev with
    | stdoutData d =>
      rw [List.foldl_cons]
      exact ih ht (a ++ d) b
    | stderrData d =>
      rw [List.foldl_cons]
      exact ih ht a (b ++ d)
    | errorEv e =>
      exact absurd (h (ProcEvent.errorEv e) (by simp)) (by simp [isDataEvent])
    | closeEv c =>
      exact absurd (h (ProcEvent.closeEv c) (by simp)) (by simp [isDataEvent])

/-- A settled promise stays settled with the same value, whatever
events still arrive. -/
theorem foldl_execStep_settled (r : Except SpawnFailure ExecOutput) :
    ∀ (post : List ProcEvent) (st : ExecState), st.settled = some r →
      (post.foldl execStep st).settled = some r := by
  intro post
  induction post with
  | nil => intro st h; exact h
  | cons ev t ih =>
    intro st h
    rw [List.foldl_cons]
    apply ih
    cases ev <;> simp [execStep, h]

/-- C9: when the process starts (a run of data chunks) and exits, the
promise resolves with the accumulated stdout, stderr and the exit code
— whatever that code is, non-zero included; when instead an `error`
event arrives (the process could not be started), the promise rejects,
carrying the stdout and stderr accumulated so far plus the underlying
spawn error. -/
theorem execArgs_resolve_reject (pre post1 post2 : List ProcEvent) (code : Int) (e : String)
    (hdata : ∀ ev ∈ pre, isDataEvent ev = true) :
    execArgsModel (pre ++ ProcEvent.closeEv code :: post1) =
      some (Except.ok ⟨stdoutOf pre, stderrOf pre, code⟩) ∧
    execArgsModel (pre ++ ProcEvent.errorEv e :: post2) =
      some (Except.error ⟨stdoutOf pre, stderrOf pre, e⟩) := by
  have hpre : pre.foldl execStep ⟨"", "", none⟩ = ⟨stdoutOf pre, stderrOf pre, none⟩ :=
    foldl_execStep_data pre hdata "" ""
  constructor
  · unfold execArgsModel
    rw [List.foldl_append, hpre, List.foldl_cons]
    exact foldl_execStep_settled _ post1 _ rfl
  · unfold execArgsModel
    rw [List.foldl_append, hpre, List.foldl_cons]
    exact foldl_execStep_settled _ post2 _ rfl

/-- C9 (witness): two stdout chunks and a stderr chunk, then exit code
101 — resolution with the concatenated texts; same chunks then a spawn
error — rejection carrying them. -/
theorem execArgs_resolve_reject_witness :
    execArgsModel [ProcEvent.stdoutData "reason: compiler-", ProcEvent.stderrData "warming up",
        ProcEvent.stdoutData "message", ProcEvent.closeEv 101] =
      some (Except.ok ⟨"reason: compiler-message", "warming up", 101⟩) ∧
    execArgsModel [ProcEvent.stdoutData "reason: compiler-", ProcEvent.stderrData "warming up",
        ProcEvent.stdoutData "message", ProcEvent.errorEv "spawn cargo ENOENT"] =
      some (Except.error ⟨"reason: compiler-message", "warming up", "spawn cargo ENOENT"⟩) := by
  have h := execArgs_resolve_reject
    [ProcEvent.stdoutData "reason: compiler-", ProcEvent.stderrData "warming up",
      ProcEvent.stdoutData "message"] [] [] 101 "spawn cargo ENOENT"
    (by decide)
  constructor
  · exact h.1.trans (by decide)
  · exact h.2.trans (by decide)

/-! ## Store and publish lemmas -/

theorem publishAll_cons (e : JsPath × List Diagnostic) (rest : DiagStore) (dc : DiagCollection) :
    publishAll (e :: rest) dc = publishAll rest (dcSet dc e.1 e.2) := rfl

theorem lookupA_dcSet_self :
    ∀ (dc : DiagCollection) (k : JsPath) (v : List Diagnostic),
      lookupA (dcSet dc k v) k = some v := by
  intro dc k v
  induction dc with
  | nil => simp [dcSet, lookupA]
  | cons e rest ih =>
    by_cases he : e.1 = k
    · simp [dcSet, he, lookupA]
    · simp [dcSet, he, lookupA, ih]

theorem lookupA_dcSet_ne :
    ∀ (dc : DiagCollection) (k : JsPath) (v : List Diagnostic) (k' : JsPath), k' ≠ k →
      lookupA (dcSet dc k v) k' = lookupA dc k' := by
  intro dc k v k' h
  have hkk : k ≠ k' := fun hh => h hh.symm
  induction dc with
  | nil =>
    show (if k = k' then some v else lookupA [] k') = none
    rw [if_neg hkk]
    rfl
  | cons e rest ih =>
    show lookupA (if e.1 = k then (k, v) :: rest else e :: dcSet rest k v) k' =
      lookupA (e :: rest) k'
    by_cases he : e.1 = k
    · rw [if_pos he]
      show (if k = k' then some v else lookupA rest k') =
        if e.1 = k' then some e.2 else lookupA rest k'
      rw [if_neg hkk, if_neg (by rw [he]; exact hkk)]
    · rw [if_neg he]
      show (if e.1 = k' then some e.2 else lookupA (dcSet rest k v) k') =
        if e.1 = k' then some e.2 else lookupA rest k'
      rw [ih]

theorem lookupA_publishAll_not_mem :
    ∀ (store : DiagStore) (dc : DiagCollection) (f : JsPath),
      (∀ e ∈ store, e.1 ≠ f) → lookupA (publishAll store dc) f = lookupA dc f := by
  intro store
  induction store with
  | nil => intro dc f _; rfl
  | cons e rest ih =>
    intro dc f h
    rw [publishAll_cons, ih _ f (fun x hx => h x (by simp [hx]))]
    exact lookupA_dcSet_ne dc e.1 e.2 f (fun hf => h e (by simp) hf.symm)

theorem lookupA_publishAll_mem :
    ∀ (store : DiagStore) (dc : DiagCollection) (f : JsPath) (v : List Diagnostic),
      (store.map Prod.fst).Nodup → (f, v) ∈ store →
      lookupA (publishAll store dc) f = some v := by
  intro store
  induction store with
  | nil => intro dc f v _ hm; simp at hm
  | cons e rest ih =>
    intro dc f v hnd hm
    rw [List.map_cons, List.nodup_cons] at hnd
    rw [publishAll_cons]
    rcases List.mem_cons.mp hm with he | hm'
    · subst he
      have hrest : ∀ x ∈ rest, x.1 ≠ f := by
        intro x hx hxf
        apply hnd.1
        show f ∈ List.map Prod.fst rest
        rw [← hxf]
        exact List.mem_map_of_mem Prod.fst hx
      rw [lookupA_publishAll_not_mem rest _ f hrest]
      exact lookupA_dcSet_self dc f v
    · exact ih _ f v hnd.2 hm'

theorem mapDiagnostics_skip_all (root : JsPath) :
    ∀ (msgs : List (Option CheckMessage)) (store : DiagStore),
      (∀ m ∈ msgs, ∃ r, m = some r ∧ r.message = none) →
      mapDiagnostics root msgs store = Except.ok store := by
  intro msgs
  induction msgs with
  | nil => intro store _; rfl
  | cons m t ih =>
    intro store h
    obtain ⟨r, hm, hr⟩ := h m (by simp)
    subst hm
    unfold mapDiagnostics
    rw [hr]
    exact ih store (fun x hx => h x (by simp [hx]))

theorem clearDiagnostics_keys (s : DiagStore) :
    (clearDiagnostics s).map Prod.fst = s.map Prod.fst := by
  unfold clearDiagnostics
  rw [List.map_map]
  rfl

/-! ## Claims C7, C8, C10 -/

/-- C7: on a run whose parsed output holds no compiler-message bodies
(every record's `message` field is absent), every file keyed in the
per-file store before the run keeps its key — the store becomes its
key-preserving truncation `clearDiagnostics` — and each such file is
republished to the host collection with the empty diagnostic list. -/
theorem runOnSave_clean_run_republishes_empty (fs : JsPath → Bool) (fuel : Nat)
    (events : List ProcEvent) (decode : String → Option CheckMessage)
    (fileName : JsPath) (st : HostState) (root : JsPath) (out : ExecOutput)
    (hroot : findCargoRoot fs fileName fuel = some (Except.ok root))
    (hout : execArgsModel events = some (Except.ok out))
    (hmsgs : ∀ m ∈ processCargoCheckOutput decode out.stdout,
      ∃ r, m = some r ∧ r.message = none)
    (hnodup : (st.diagnosticsPerFile.map Prod.fst).Nodup) :
    ∃ st', runOnSave fs fuel events decode fileName st = some st' ∧
      st'.diagnosticsPerFile = clearDiagnostics st.diagnosticsPerFile ∧
      ∀ f ds, (f, ds) ∈ st.diagnosticsPerFile →
        lookupA st'.dc f = some ([] : List Diagnostic) := by
  have hmap : mapDiagnostics root (processCargoCheckOutput decode out.stdout)
      (clearDiagnostics st.diagnosticsPerFile) =
      Except.ok (clearDiagnostics st.diagnosticsPerFile) :=
    mapDiagnostics_skip_all root _ _ hmsgs
  refine ⟨⟨clearDiagnostics st.diagnosticsPerFile,
    publishAll (clearDiagnostics st.diagnosticsPerFile) st.dc,
    st.errorsShown + (processCargoCheckOutput decode out.stdout).countP
      (fun m => decide (m = none))⟩, ?_, rfl, ?_⟩
  · unfold runOnSave
    rw [hroot, hout]
    simp only []
    rw [hmap]
  · intro f ds hmem
    have hmem' : (f, ([] : List Diagnostic)) ∈ clearDiagnostics st.diagnosticsPerFile :=
      List.mem_map_of_mem (fun e => (e.1, ([] : List Diagnostic))) hmem
    have hnodup' : ((clearDiagnostics st.diagnosticsPerFile).map Prod.fst).Nodup := by
      rw [clearDiagnostics_keys]
      exact hnodup
    exact lookupA_publishAll_mem _ st.dc f [] hnodup' hmem'

/-- C8: when the run aborts because no project root was found or
because the checker process failed to spawn, the per-file store and the
published collection are exactly as before and exactly one user-visible
error is shown. -/
theorem runOnSave_infra_failure_untouched (fs : JsPath → Bool) (fuel : Nat)
    (events : List ProcEvent) (decode : String → Option CheckMessage)
    (fileName : JsPath) (st : HostState)
    (h : (∃ msg, findCargoRoot fs fileName fuel = some (Except.error msg)) ∨
      ((∃ root, findCargoRoot fs fileName fuel = some (Except.ok root)) ∧
        ∃ p, execArgsModel events = some (Except.error p))) :
    runOnSave fs fuel events decode fileName st =
      some ⟨st.diagnosticsPerFile, st.dc, st.errorsShown + 1⟩ := by
  unfold runOnSave
  rcases h with ⟨msg, hmsg⟩ | ⟨⟨root, hroot⟩, ⟨p, hp⟩⟩
  · rw [hmsg]
  · rw [hroot, hp]

/-- C8 (witness): a root-not-found abort on a filesystem with no
manifest anywhere, from a non-empty previously published state. -/
theorem runOnSave_infra_failure_untouched_witness :
    runOnSave (fun _ => false) 10 [ProcEvent.closeEv 0] (fun _ => none)
      ⟨true, ["a", "main.rs"]⟩
      ⟨[(⟨true, ["w", "src", "main.rs"]⟩, [spanToDiagnostic sampleBody sampleSpan])],
        [(⟨true, ["w", "src", "main.rs"]⟩, [spanToDiagnostic sampleBody sampleSpan])], 0⟩ =
      some ⟨[(⟨true, ["w", "src", "main.rs"]⟩, [spanToDiagnostic sampleBody sampleSpan])],
        [(⟨true, ["w", "src", "main.rs"]⟩, [spanToDiagnostic sampleBody sampleSpan])], 1⟩ :=
  runOnSave_infra_failure_untouched (fun _ => false) 10 [ProcEvent.closeEv 0] (fun _ => none)
    ⟨true, ["a", "main.rs"]⟩
    ⟨[(⟨true, ["w", "src", "main.rs"]⟩, [spanToDiagnostic sampleBody sampleSpan])],
      [(⟨true, ["w", "src", "main.rs"]⟩, [spanToDiagnostic sampleBody sampleSpan])], 0⟩
    (Or.inl ⟨"No Cargo.toml found in any parent folder.", rfl⟩)

/-- C10: a single compiler message whose only span names a file is
grouped under `path.join(cargoRoot, file_name)`, the file name's form
never being checked; when the file name is itself absolute and the root
is not `/`, that join prefixes the root's segments, so the diagnostic
is keyed under the root-relative join and not under the absolute path
itself. -/
theorem mapper_groups_under_root_join (cargoRoot : JsPath) (m : CheckMessage)
    (body : MessageBody) (span : CheckMessageSpan) (store : DiagStore)
    (hm : m.message = some body) (hs : body.spans = [span])
    (habs : cargoRoot.abs = true) (hrnorm : NormalSegs cargoRoot.segs)
    (hrne : cargoRoot.segs ≠ [])
    (hfabs : span.file_name.abs = true) (hfnorm : NormalSegs span.file_name.segs) :
    mapDiagnostics cargoRoot [some m] store =
      Except.ok (addDiagnostic store ⟨true, cargoRoot.segs ++ span.file_name.segs⟩
        (spanToDiagnostic body span)) ∧
    (⟨true, cargoRoot.segs ++ span.file_name.segs⟩ : JsPath) ≠ span.file_name := by
  have hkey : pathJoin cargoRoot span.file_name =
      ⟨true, cargoRoot.segs ++ span.file_name.segs⟩ := by
    rw [pathJoin_normal cargoRoot span.file_name hrnorm hfnorm, habs]
  constructor
  · unfold mapDiagnostics
    rw [hm]
    show mapDiagnostics cargoRoot []
        (List.foldl (fun st span => addDiagnostic st (pathJoin cargoRoot span.file_name)
          (spanToDiagnostic body span)) store body.spans) = _
    rw [hs]
    simp only [List.foldl_cons, List.foldl_nil, hkey]
    rfl
  · intro h
    have hsegs : cargoRoot.segs ++ span.file_name.segs = span.file_name.segs :=
      congrArg JsPath.segs h
    have := congrArg List.length hsegs
    rw [List.length_append] at this
    have : cargoRoot.segs.length = 0 := by omega
    exact hrne (List.length_eq_zero.mp this)

/-- C7 (witness): the checker exits 0 with empty stdout; the two files
that held diagnostics keep their keys, truncated, and are both
republished with the empty list. -/
theorem runOnSave_clean_run_republishes_empty_witness :
    ∃ st', runOnSave (fun p => decide (p = ⟨true, ["w", "Cargo.toml"]⟩)) 2
        [ProcEvent.closeEv 0] (fun _ => none) ⟨true, ["w", "main.rs"]⟩
        ⟨[(⟨true, ["w", "src", "main.rs"]⟩, [spanToDiagnostic sampleBody sampleSpan]),
          (⟨true, ["w", "src", "lib.rs"]⟩, [spanToDiagnostic sampleBody sampleSpan])],
          [], 0⟩ = some st' ∧
      st'.diagnosticsPerFile = clearDiagnostics
        [(⟨true, ["w", "src", "main.rs"]⟩, [spanToDiagnostic sampleBody sampleSpan]),
          (⟨true, ["w", "src", "lib.rs"]⟩, [spanToDiagnostic sampleBody sampleSpan])] ∧
      ∀ f ds, (f, ds) ∈ ([(⟨true, ["w", "src", "main.rs"]⟩,
            [spanToDiagnostic sampleBody sampleSpan]),
          (⟨true, ["w", "src", "lib.rs"]⟩, [spanToDiagnostic sampleBody sampleSpan])] :
          DiagStore) →
        lookupA st'.dc f = some ([] : List Diagnostic) :=
  runOnSave_clean_run_republishes_empty
    (fun p => decide (p = ⟨true, ["w", "Cargo.toml"]⟩)) 2 [ProcEvent.closeEv 0]
    (fun _ => none) ⟨true, ["w", "main.rs"]⟩
    ⟨[(⟨true, ["w", "src", "main.rs"]⟩, [spanToDiagnostic sampleBody sampleSpan]),
      (⟨true, ["w", "src", "lib.rs"]⟩, [spanToDiagnostic sampleBody sampleSpan])], [], 0⟩
    ⟨true, ["w"]⟩ ⟨"", "", 0⟩ rfl rfl
    (by
      intro m hm
      rw [show processCargoCheckOutput (fun _ => (none : Option CheckMessage)) "" = []
        from rfl] at hm
      exact absurd hm (List.not_mem_nil m))
    (by decide)

/-- A span whose file name is itself an absolute path. -/
def absSpan : CheckMessageSpan :=
  { file_name := ⟨true, ["abs", "lib.rs"]⟩, line_start := 1, line_end := 1,
    column_start := 1, column_end := 2, is_primary := true, label := none,
    suggested_replacement := none, suggestion_applicability := none, expansion := none }

/-- A message body holding only `absSpan`. -/
def absBody : MessageBody :=
  { message := "dead code", code := none, level := "warning", spans := [absSpan] }

/-- A compiler-message record holding `absBody`. -/
def absMsg : CheckMessage :=
  { reason := "compiler-message", package_id := "demo 0.1.0",
    target := ⟨"demo", "2018", "src/lib.rs"⟩, message := some absBody }

/-- C10 (witness): root `/w`, span file name `/abs/lib.rs` — the
diagnostic is keyed under `/w/abs/lib.rs`, not under `/abs/lib.rs`. -/
theorem mapper_groups_under_root_join_witness :
    mapDiagnostics ⟨true, ["w"]⟩ [some absMsg] [] =
      Except.ok (addDiagnostic [] ⟨true, ["w", "abs", "lib.rs"]⟩
        (spanToDiagnostic absBody absSpan)) ∧
    (⟨true, ["w", "abs", "lib.rs"]⟩ : JsPath) ≠ absSpan.file_name := by
  have h := mapper_groups_under_root_join ⟨true, ["w"]⟩ absMsg absBody absSpan []
    rfl rfl rfl (by decide) (by decide) rfl (by decide)
  exact ⟨h.1, h.2⟩

end Cargolint
